import Mathlib

/-!
Verification of the AetherGallery client-side image adjustment pipeline.

The development embeds the image editor component (its adjustment state,
slider-backed setters, rotate/zoom mutators, the canvas render pipeline
with the 3x3 sharpen convolution, and the save handler) together with the
gallery's media-type classification.  JavaScript numbers are embedded as
rationals, pixel buffers as flat RGBA byte arrays indexed by naturals
(matching `Uint8ClampedArray`), and the browser canvas operations the
component drives (`drawImage` under an affine transform with a CSS
brightness/contrast/saturate filter, `toBlob`) are modelled explicitly as
part of the environment.
-/

namespace Aether

/-! ### Adjustment state and its mutators -/

/-- The editor's parameter state: the six `useState` hooks of the image
editor component (brightness/contrast/saturation default 100, sharpness
default 0, rotation default 0, zoom default 1). -/
structure EditorState where
  brightness : ℚ
  contrast : ℚ
  saturation : ℚ
  sharpness : ℚ
  rotationDeg : ℤ
  zoom : ℚ

/-- The initial state installed by the `useState` initializers. -/
def initialState : EditorState := ⟨100, 100, 100, 0, 0, 1⟩

/-- Slider handler for brightness: stores the incoming value unchanged. -/
def setBrightness (v : ℚ) (s : EditorState) : EditorState := { s with brightness := v }

/-- Slider handler for contrast: stores the incoming value unchanged. -/
def setContrast (v : ℚ) (s : EditorState) : EditorState := { s with contrast := v }

/-- Slider handler for saturation: stores the incoming value unchanged. -/
def setSaturation (v : ℚ) (s : EditorState) : EditorState := { s with saturation := v }

/-- Slider handler for sharpness: stores the incoming value unchanged. -/
def setSharpness (v : ℚ) (s : EditorState) : EditorState := { s with sharpness := v }

/-- The update function passed to `setRotation` by `handleRotate`:
`(prev + 90) % 360`, with `%` the JavaScript remainder (truncated
division), i.e. `Int.tmod`. -/
def rotateStep (r : ℤ) : ℤ := Int.tmod (r + 90) 360

/-- `handleRotate`: applies `rotateStep` to the stored rotation. -/
def handleRotate (s : EditorState) : EditorState := { s with rotationDeg := rotateStep s.rotationDeg }

/-- The update function passed to `setZoom` by `handleZoomIn`:
`Math.min(prev + 0.1, 3)`. -/
def zoomInStep (z : ℚ) : ℚ := min (z + 1/10) 3

/-- The update function passed to `setZoom` by `handleZoomOut`:
`Math.max(prev - 0.1, 0.5)`. -/
def zoomOutStep (z : ℚ) : ℚ := max (z - 1/10) (1/2)

/-- `handleZoomIn`: applies `zoomInStep` to the stored zoom. -/
def handleZoomIn (s : EditorState) : EditorState := { s with zoom := zoomInStep s.zoom }

/-- `handleZoomOut`: applies `zoomOutStep` to the stored zoom. -/
def handleZoomOut (s : EditorState) : EditorState := { s with zoom := zoomOutStep s.zoom }

/-- The zoom values reachable from the default `1` by any sequence of
`ZoomIn` / `ZoomOut` presses. -/
inductive ReachableZoom : ℚ → Prop
  | init : ReachableZoom 1
  | stepIn {z : ℚ} : ReachableZoom z → ReachableZoom (zoomInStep z)
  | stepOut {z : ℚ} : ReachableZoom z → ReachableZoom (zoomOutStep z)

/-! ### Pixel buffers -/

/-- A decoded raster: `width`, `height`, and the flat RGBA byte buffer
(`data i` is the byte at flat index `i`, as in `ImageData.data`; the byte
of channel `c` of pixel `(x, y)` sits at index `(y * width + x) * 4 + c`). -/
structure ImageData where
  width : ℕ
  height : ℕ
  data : ℕ → ℕ

/-- Byte of channel `c` of pixel `(x, y)`. -/
def px (img : ImageData) (x y c : ℕ) : ℕ := img.data ((y * img.width + x) * 4 + c)

/-- Point update of a flat buffer (a single `output.data[idx] = v` store). -/
def writeIdx (d : ℕ → ℕ) (i v : ℕ) : ℕ → ℕ := fun j => if j = i then v else d j

/-- Round to the nearest integer, ties to even (the rounding used when a
JavaScript number is stored into a `Uint8ClampedArray` slot). -/
def roundHalfEven (q : ℚ) : ℤ :=
  if q - ⌊q⌋ < 1/2 then ⌊q⌋
  else if 1/2 < q - ⌊q⌋ then ⌊q⌋ + 1
  else if ⌊q⌋ % 2 = 0 then ⌊q⌋ else ⌊q⌋ + 1

/-- `Uint8ClampedArray` store semantics: clamp to `[0, 255]`, then round
half to even. -/
def u8Store (q : ℚ) : ℕ := (roundHalfEven (min 255 (max 0 q))).toNat

/-! ### The sharpen convolution (`applySharpen`) -/

/-- The 3x3 kernel literal of `applySharpen`:
`[0, -amount, 0, -amount, 1 + 4*amount, -amount, 0, -amount, 0]`. -/
def sharpenKernel (amount : ℚ) : List ℚ :=
  [0, -amount, 0, -amount, 1 + 4 * amount, -amount, 0, -amount, 0]

/-- The inner accumulation of `applySharpen` for channel `c` of pixel
`(x, y)`: `sum += data[((y+ky)*width + (x+kx))*4 + c] * kernel[(ky+1)*3 + (kx+1)]`
over `ky, kx ∈ {-1, 0, 1}`.  Here the loop counters are shifted to
`0, 1, 2`, so the buffer index is `((y+ky-1)*width + (x+kx-1))*4 + c` and
the kernel index is `ky*3 + kx`; this matches the source exactly for the
pixels the loop visits (which all have `x ≥ 1` and `y ≥ 1`). -/
def convSum (data : ℕ → ℕ) (width : ℕ) (kernel : List ℚ) (x y c : ℕ) : ℚ :=
  (List.range 3).foldl (fun s ky =>
    (List.range 3).foldl (fun s2 kx =>
      s2 + (data (((y + ky - 1) * width + (x + kx - 1)) * 4 + c) : ℚ) *
        kernel.getD (ky * 3 + kx) 0) s) 0

/-- One iteration of the per-pixel loop body of `applySharpen`: writes the
clamped convolution result for the three color channels of pixel `(x, y)`,
then copies the alpha byte through. -/
def sharpenPixel (data : ℕ → ℕ) (width : ℕ) (kernel : List ℚ) (x y : ℕ)
    (out : ℕ → ℕ) : ℕ → ℕ :=
  let withRGB := (List.range 3).foldl (fun o c =>
    writeIdx o ((y * width + x) * 4 + c)
      (u8Store (min 255 (max 0 (convSum data width kernel x y c))))) out
  writeIdx withRGB ((y * width + x) * 4 + 3)
    (u8Store ((data ((y * width + x) * 4 + 3) : ℚ)))

/-- `applySharpen(imageData, amount)`: allocates a fresh zero-initialized
output buffer (`new ImageData(width, height)`), then runs the per-pixel
loop for `y` from `1` to `height - 2` and `x` from `1` to `width - 2`,
reading from the input buffer and writing to the output buffer. -/
def applySharpen (imageData : ImageData) (amount : ℚ) : ImageData :=
  let data := imageData.data
  let width := imageData.width
  let height := imageData.height
  let kernel := sharpenKernel amount
  let outData :=
    (List.range' 1 (height - 2)).foldl
      (fun o y =>
        (List.range' 1 (width - 2)).foldl
          (fun o2 x => sharpenPixel data width kernel x y o2) o)
      (fun _ => 0)
  ⟨width, height, outData⟩

/-! ### The compositing pass (canvas transform + CSS filter draw)

The component sizes the canvas to the image, clears it, composes the
transform `translate(w/2, h/2); rotate(deg); scale(zoom, zoom);
translate(-w/2, -h/2)`, sets the CSS filter
`brightness(b%) contrast(c%) saturate(s%)`, and draws the image.  The
canvas 2D semantics of that draw are modelled below: each destination
pixel is pulled back through the inverse transform; when the pullback
lands exactly on a source pixel it receives that pixel passed through the
CSS color filter, otherwise it stays transparent (the cleared canvas).
The CSS filter formulas are the ones of the filter-effects specification;
at the 100% defaults each of them is the identity. -/

/-- A 2D affine map in canvas matrix order: `x' = a*x + c*y + e`,
`y' = b*x + d*y + f`. -/
structure Affine where
  a : ℚ
  b : ℚ
  c : ℚ
  d : ℚ
  e : ℚ
  f : ℚ

/-- The identity transform. -/
def idAffine : Affine := ⟨1, 0, 0, 1, 0, 0⟩

/-- Composition of affine maps (`m` after `n`, as canvas transform calls
accumulate). -/
def Affine.mul (m n : Affine) : Affine :=
  ⟨m.a * n.a + m.c * n.b, m.b * n.a + m.d * n.b,
   m.a * n.c + m.c * n.d, m.b * n.c + m.d * n.d,
   m.a * n.e + m.c * n.f + m.e, m.b * n.e + m.d * n.f + m.f⟩

/-- `ctx.translate(tx, ty)`. -/
def translateA (tx ty : ℚ) : Affine := ⟨1, 0, 0, 1, tx, ty⟩

/-- `ctx.scale(sx, sy)`. -/
def scaleA (sx sy : ℚ) : Affine := ⟨sx, 0, 0, sy, 0, 0⟩

/-- Exact cosine of `r` degrees for the quarter-turn angles the editor can
reach (its rotation state only ever holds multiples of 90). -/
def cosDeg (r : ℤ) : ℚ :=
  if Int.emod r 360 = 0 then 1
  else if Int.emod r 360 = 90 then 0
  else if Int.emod r 360 = 180 then -1
  else if Int.emod r 360 = 270 then 0
  else 0

/-- Exact sine of `r` degrees for the quarter-turn angles the editor can
reach. -/
def sinDeg (r : ℤ) : ℚ :=
  if Int.emod r 360 = 0 then 0
  else if Int.emod r 360 = 90 then 1
  else if Int.emod r 360 = 180 then 0
  else if Int.emod r 360 = 270 then -1
  else 0

/-- `ctx.rotate(r * PI / 180)`. -/
def rotAffine (r : ℤ) : Affine :=
  ⟨cosDeg r, sinDeg r, -(sinDeg r), cosDeg r, 0, 0⟩

/-- The composed transform of the render pass:
`translate(w/2, h/2) * rotate(deg) * scale(z, z) * translate(-w/2, -h/2)`. -/
def transformOf (w h : ℕ) (r : ℤ) (z : ℚ) : Affine :=
  (((translateA ((w : ℚ)/2) ((h : ℚ)/2)).mul (rotAffine r)).mul
    (scaleA z z)).mul (translateA (-((w : ℚ)/2)) (-((h : ℚ)/2)))

/-- Determinant of the linear part. -/
def Affine.det (t : Affine) : ℚ := t.a * t.d - t.b * t.c

/-- Inverse affine map (rational division is total; every transform the
editor composes is invertible since `zoom` never reaches 0). -/
def Affine.inv (t : Affine) : Affine :=
  ⟨t.d / t.det, -(t.b) / t.det, -(t.c) / t.det, t.a / t.det,
   (t.c * t.f - t.d * t.e) / t.det, (t.b * t.e - t.a * t.f) / t.det⟩

/-- Apply an affine map: first coordinate. -/
def Affine.appX (t : Affine) (x y : ℚ) : ℚ := t.a * x + t.c * y + t.e

/-- Apply an affine map: second coordinate. -/
def Affine.appY (t : Affine) (x y : ℚ) : ℚ := t.b * x + t.d * y + t.f

/-- The CSS filter chain `brightness(b%) contrast(c%) saturate(s%)`
applied to one RGB triple (values on the `[0, 255]` scale), left to
right, with the filter-effects formulas: brightness is a linear multiplier
on each channel, contrast is the slope/intercept map
`v ↦ k*v + 255/2*(1-k)`, and saturate is the standard luminance-weighted
color matrix.  All three are the identity at 100%. -/
def filterRGB (st : EditorState) (r g b : ℚ) : ℚ × ℚ × ℚ :=
  let kb := st.brightness / 100
  let r1 := kb * r
  let g1 := kb * g
  let b1 := kb * b
  let kc := st.contrast / 100
  let r2 := kc * r1 + (255/2) * (1 - kc)
  let g2 := kc * g1 + (255/2) * (1 - kc)
  let b2 := kc * b1 + (255/2) * (1 - kc)
  let ks := st.saturation / 100
  let r3 := (213/1000 + 787/1000 * ks) * r2 + (715/1000 - 715/1000 * ks) * g2 +
    (72/1000 - 72/1000 * ks) * b2
  let g3 := (213/1000 - 213/1000 * ks) * r2 + (715/1000 + 285/1000 * ks) * g2 +
    (72/1000 - 72/1000 * ks) * b2
  let b3 := (213/1000 - 213/1000 * ks) * r2 + (715/1000 - 715/1000 * ks) * g2 +
    (72/1000 + 928/1000 * ks) * b2
  (r3, g3, b3)

/-- Channel `c` of source pixel `(x, y)` after the CSS color filter, as
the byte finally stored on the canvas.  Alpha is not touched by the three
filter functions. -/
def filterChannel (st : EditorState) (img : ImageData) (x y c : ℕ) : ℕ :=
  let rgb := filterRGB st (px img x y 0) (px img x y 1) (px img x y 2)
  match c with
  | 0 => u8Store rgb.1
  | 1 => u8Store rgb.2.1
  | 2 => u8Store rgb.2.2
  | 3 => u8Store ((px img x y 3 : ℚ))
  | _ + 4 => 0

/-- Channel `c` of destination pixel `(x, y)` of the draw: pull back
through the inverse transform; copy the filtered source pixel when the
pullback is an exact in-bounds lattice point, else leave the cleared
(transparent) canvas byte. -/
def samplePixel (st : EditorState) (img : ImageData) (t : Affine) (x y c : ℕ) : ℕ :=
  let sx := t.inv.appX (x : ℚ) (y : ℚ)
  let sy := t.inv.appY (x : ℚ) (y : ℚ)
  if sx.den = 1 ∧ sy.den = 1 ∧ 0 ≤ sx.num ∧ sx.num < (img.width : ℤ) ∧
      0 ≤ sy.num ∧ sy.num < (img.height : ℤ) then
    filterChannel st img sx.num.toNat sy.num.toNat c
  else 0

/-- The pre-sharpen composited surface: the canvas content after the
clear, transform, and filtered draw of the render pass (steps before the
`sharpness > 0` branch). -/
def composite (st : EditorState) (img : ImageData) : ImageData :=
  let w := img.width
  let h := img.height
  let t := transformOf w h st.rotationDeg st.zoom
  ⟨w, h, fun i =>
    if i < 4 * w * h then samplePixel st img t ((i / 4) % w) ((i / 4) / w) (i % 4)
    else 0⟩

/-- `applyFilters`: the full render.  Composites the source through the
transform and color filter; then, only when `sharpness > 0`, reads the
surface back, runs `applySharpen(imageData, sharpness / 100)`, and writes
the result over the canvas. -/
def applyFilters (st : EditorState) (img : ImageData) : ImageData :=
  let base := composite st img
  if 0 < st.sharpness then applySharpen base (st.sharpness / 100) else base

/-! ### The save handler (`handleSave`) -/

/-- An encoded image handed to the save callback; the payload records the
surface the encoding was produced from. -/
structure Blob where
  mime : String
  payload : ImageData

/-- Outcome of a `handleSave` invocation.  The `exportError` constructor
expresses the error taxonomy of the design document; it is shown below
that the code never produces it. -/
inductive SaveOutcome
  | delivered (b : Blob)
  | silent
  | exportError

/-- Model of `canvas.toBlob(cb, 'image/png')` for an untainted canvas:
the callback receives `null` only for a zero-area canvas, otherwise a PNG
encoding of the current surface. -/
def toBlobModel (c : ImageData) : Option Blob :=
  if c.width = 0 ∨ c.height = 0 then none else some ⟨"image/png", c⟩

/-- `handleSave`: returns silently when the canvas ref is empty; otherwise
encodes the canvas and invokes `onSave(blob)` exactly when the encoding is
non-null.  No branch raises or signals an error. -/
def handleSave (canvas : Option ImageData) : SaveOutcome :=
  match canvas with
  | none => SaveOutcome.silent
  | some c =>
    match toBlobModel c with
    | some b => SaveOutcome.delivered b
    | none => SaveOutcome.silent

/-- The canvas before any image has loaded: the mounted `<canvas>` element
at its default 300x150 size, fully transparent (no render has run, since
`applyFilters` returns early while `image` is null). -/
def defaultCanvas : ImageData := ⟨300, 150, fun _ => 0⟩

/-! ### Gallery media classification -/

/-- Media kind assigned by `loadMedia`. -/
inductive MediaType
  | image
  | video
deriving DecidableEq

/-- The test `file.name.toLowerCase().match(/\.(mp4|webm|mov)$/)`: the
lowercased name ends with one of the three video extensions. -/
def isVideoName (name : String) : Bool :=
  (name.toLower).endsWith (".mp4") || (name.toLower).endsWith (".webm") ||
    (name.toLower).endsWith (".mov")

/-- `type: isVideo ? 'video' : 'image'`. -/
def classify (name : String) : MediaType :=
  if isVideoName name then MediaType.video else MediaType.image

/-- A gallery item as built by `loadMedia`. -/
structure MediaItem where
  name : String
  type : MediaType

/-- The list handed to the 3D viewer:
`media.filter(m => m.type === 'image')`. -/
def threeDMedia (media : List MediaItem) : List MediaItem :=
  media.filter (fun m => m.type == MediaType.image)

/-- The guard around the edit button: it is rendered only when
`item.type === 'image'`. -/
def canEdit (m : MediaItem) : Bool := m.type == MediaType.image

/-! ### General lemmas -/

/-- Folding a function that ignores its list argument leaves the
accumulator unchanged. -/
theorem foldl_skip {α β : Type} (l : List β) (o : α) :
    List.foldl (fun acc _ => acc) o l = o := by
  induction l generalizing o with
  | nil => rfl
  | cons b t ih => exact ih o

/-- `applySharpen` on an image narrower or shorter than 3 pixels never
runs its loop body, so every byte of the fresh zero-initialized output
buffer stays 0. -/
theorem applySharpen_blank (img : ImageData) (amount : ℚ)
    (hdim : img.width < 3 ∨ img.height < 3) :
    ∀ i, (applySharpen img amount).data i = 0 := by
  intro i
  rcases hdim with hw | hh
  · have hw2 : img.width - 2 = 0 := by omega
    simp only [applySharpen, hw2]
    rw [show List.range' 1 0 = ([] : List ℕ) from rfl]
    simp only [List.foldl_nil]
    rw [foldl_skip]
  · have hh2 : img.height - 2 = 0 := by omega
    simp only [applySharpen, hh2]
    rw [show List.range' 1 0 = ([] : List ℕ) from rfl]
    simp only [List.foldl_nil]

/-- Decomposition of a flat RGBA index is unique: pixel coordinates and
channel are recoverable. -/
theorem flatIdx_inj {w x x' y y' c c' : ℕ} (hx : x < w) (hx' : x' < w)
    (hc : c < 4) (hc' : c' < 4)
    (h : (y * w + x) * 4 + c = (y' * w + x') * 4 + c') :
    y = y' ∧ x = x' ∧ c = c' := by
  have hyw : y * w + x = y' * w + x' ∧ c = c' := by
    generalize y * w + x = p at h
    generalize y' * w + x' = p' at h
    omega
  have hxx : x = x' := by
    have h1 : (y * w + x) % w = (y' * w + x') % w := by rw [hyw.1]
    rwa [Nat.mul_add_mod', Nat.mul_add_mod', Nat.mod_eq_of_lt hx,
      Nat.mod_eq_of_lt hx'] at h1
  have hyy : y = y' := by
    have hw0 : 0 < w := Nat.pos_of_ne_zero (by omega)
    have h2 : y * w = y' * w := by omega
    exact Nat.eq_of_mul_eq_mul_right hw0 h2
  exact ⟨hyy, hxx, hyw.2⟩

/-- The value `applySharpen`'s loop body stores at channel `c` of its own
pixel: clamped convolution for the color channels, the input's alpha byte
for the alpha channel. -/
def ownVal (data : ℕ → ℕ) (w : ℕ) (k : List ℚ) (x y c : ℕ) : ℕ :=
  if c = 3 then u8Store ((data ((y * w + x) * 4 + 3) : ℚ))
  else u8Store (min 255 (max 0 (convSum data w k x y c)))

/-- `sharpenPixel` leaves every byte outside its own pixel's four slots
unchanged. -/
theorem sharpenPixel_other (data : ℕ → ℕ) (w : ℕ) (k : List ℚ) (x y j : ℕ)
    (out : ℕ → ℕ) (hj : ∀ c, c < 4 → j ≠ (y * w + x) * 4 + c) :
    sharpenPixel data w k x y out j = out j := by
  simp only [sharpenPixel]
  rw [show List.range 3 = [0, 1, 2] from rfl]
  simp only [List.foldl_cons, List.foldl_nil, writeIdx]
  rw [if_neg (hj 3 (by norm_num)), if_neg (hj 2 (by norm_num)),
    if_neg (hj 1 (by norm_num)), if_neg (hj 0 (by norm_num))]

/-- `sharpenPixel` stores `ownVal` at each of its own pixel's four slots,
independently of the accumulated output buffer. -/
theorem sharpenPixel_own (data : ℕ → ℕ) (w : ℕ) (k : List ℚ) (x y c : ℕ)
    (out : ℕ → ℕ) (hc : c < 4) :
    sharpenPixel data w k x y out ((y * w + x) * 4 + c) = ownVal data w k x y c := by
  simp only [sharpenPixel, ownVal]
  rw [show List.range 3 = [0, 1, 2] from rfl]
  simp only [List.foldl_cons, List.foldl_nil, writeIdx]
  interval_cases c <;> simp

/-- A row fold of `sharpenPixel` leaves untouched every byte outside the
pixels it visits. -/
theorem foldRow_untouched (data : ℕ → ℕ) (w : ℕ) (k : List ℚ) (y j : ℕ)
    (xs : List ℕ) :
    ∀ out : ℕ → ℕ, (∀ x ∈ xs, ∀ c, c < 4 → j ≠ (y * w + x) * 4 + c) →
      (xs.foldl (fun o x => sharpenPixel data w k x y o) out) j = out j := by
  induction xs with
  | nil => intro out _; rfl
  | cons a t ih =>
    intro out h
    rw [List.foldl_cons, ih _ (fun x hx => h x (List.mem_cons_of_mem a hx))]
    exact sharpenPixel_other data w k a y j out (h a (List.mem_cons_self a t))

/-- The full grid fold leaves untouched every byte outside the visited
pixels. -/
theorem foldGrid_untouched (data : ℕ → ℕ) (w : ℕ) (k : List ℚ) (j : ℕ)
    (ys xs : List ℕ) :
    ∀ out : ℕ → ℕ,
      (∀ y ∈ ys, ∀ x ∈ xs, ∀ c, c < 4 → j ≠ (y * w + x) * 4 + c) →
      (ys.foldl (fun o y => xs.foldl (fun o2 x => sharpenPixel data w k x y o2) o)
        out) j = out j := by
  induction ys with
  | nil => intro out _; rfl
  | cons b t ih =>
    intro out h
    rw [List.foldl_cons, ih _ (fun y hy => h y (List.mem_cons_of_mem b hy))]
    exact foldRow_untouched data w k b j xs out (h b (List.mem_cons_self b t))

/-- After a row fold that visits `x0`, the byte at channel `c0` of pixel
`(x0, y)` holds `ownVal`. -/
theorem foldRow_own (data : ℕ → ℕ) (w : ℕ) (k : List ℚ) (y : ℕ)
    (xs : List ℕ) (x0 c0 : ℕ) (hx0 : x0 < w) (hc0 : c0 < 4) :
    ∀ out : ℕ → ℕ, x0 ∈ xs → (∀ x ∈ xs, x < w) →
      (xs.foldl (fun o x => sharpenPixel data w k x y o) out)
        ((y * w + x0) * 4 + c0) = ownVal data w k x0 y c0 := by
  induction xs with
  | nil => intro out hmem _; cases hmem
  | cons a t ih =>
    intro out hmem hxs
    rw [List.foldl_cons]
    by_cases hx0t : x0 ∈ t
    · exact ih _ hx0t (fun x hx => hxs x (List.mem_cons_of_mem a hx))
    · have hax : x0 = a := (List.mem_cons.mp hmem).resolve_right hx0t
      subst hax
      rw [foldRow_untouched data w k y _ t _ ?_]
      · exact sharpenPixel_own data w k x0 y c0 out hc0
      · intro x hx c hcc heq
        have hinj := flatIdx_inj hx0 (hxs x (List.mem_cons_of_mem x0 hx)) hc0 hcc heq
        exact hx0t (hinj.2.1 ▸ hx)

/-- After the full grid fold that visits `(x0, y0)`, the byte at channel
`c0` of that pixel holds `ownVal`. -/
theorem foldGrid_own (data : ℕ → ℕ) (w : ℕ) (k : List ℚ)
    (ys xs : List ℕ) (x0 y0 c0 : ℕ) (hx0 : x0 < w) (hc0 : c0 < 4)
    (hxmem : x0 ∈ xs) (hxs : ∀ x ∈ xs, x < w) :
    ∀ out : ℕ → ℕ, y0 ∈ ys →
      (ys.foldl (fun o y => xs.foldl (fun o2 x => sharpenPixel data w k x y o2) o)
        out) ((y0 * w + x0) * 4 + c0) = ownVal data w k x0 y0 c0 := by
  induction ys with
  | nil => intro out hmem; cases hmem
  | cons b t ih =>
    intro out hmem
    rw [List.foldl_cons]
    by_cases hy0t : y0 ∈ t
    · exact ih _ hy0t
    · have hby : y0 = b := (List.mem_cons.mp hmem).resolve_right hy0t
      subst hby
      rw [foldGrid_untouched data w k _ t xs _ ?_]
      · exact foldRow_own data w k y0 xs x0 c0 hx0 hc0 out hxmem hxs
      · intro y hy x hx c hcc heq
        have hinj := flatIdx_inj hx0 (hxs x hx) hc0 hcc heq
        exact hy0t (hinj.1 ▸ hy)

/-- Pointwise characterization of `applySharpen` at an interior pixel
(one whose 8 neighbours all exist). -/
theorem applySharpen_interior (img : ImageData) (amount : ℚ) (x y c : ℕ)
    (hx1 : 1 ≤ x) (hx2 : x + 2 ≤ img.width) (hy1 : 1 ≤ y) (hy2 : y + 2 ≤ img.height)
    (hc : c < 4) :
    (applySharpen img amount).data ((y * img.width + x) * 4 + c) =
      ownVal img.data img.width (sharpenKernel amount) x y c := by
  simp only [applySharpen]
  refine foldGrid_own img.data img.width (sharpenKernel amount) _ _ x y c
    (by omega) hc ?_ ?_ _ ?_
  · rw [List.mem_range'_1]; omega
  · intro x' hx'
    rw [List.mem_range'_1] at hx'
    omega
  · rw [List.mem_range'_1]; omega

/-- Unfolding the convolution accumulation against the sharpen kernel:
center weight `1 + 4*a`, orthogonal neighbours `-a`, diagonal neighbours
weight 0. -/
theorem convSum_kernel (data : ℕ → ℕ) (w : ℕ) (a : ℚ) (x y c : ℕ) :
    convSum data w (sharpenKernel a) x y c =
      (1 + 4 * a) * (data ((y * w + x) * 4 + c) : ℚ) -
        a * ((data ((y * w + (x - 1)) * 4 + c) : ℚ) +
          (data ((y * w + (x + 1)) * 4 + c) : ℚ) +
          (data (((y - 1) * w + x) * 4 + c) : ℚ) +
          (data (((y + 1) * w + x) * 4 + c) : ℚ)) +
        0 * ((data (((y - 1) * w + (x - 1)) * 4 + c) : ℚ) +
          (data (((y - 1) * w + (x + 1)) * 4 + c) : ℚ) +
          (data (((y + 1) * w + (x - 1)) * 4 + c) : ℚ) +
          (data (((y + 1) * w + (x + 1)) * 4 + c) : ℚ)) := by
  rw [convSum, show List.range 3 = [0, 1, 2] from rfl]
  simp only [List.foldl_cons, List.foldl_nil, sharpenKernel, List.getD_cons_zero,
    List.getD_cons_succ]
  have e2 : ∀ n : ℕ, n + 2 - 1 = n + 1 := fun n => rfl
  have e1 : ∀ n : ℕ, n + 1 - 1 = n := fun n => rfl
  have e0 : ∀ n : ℕ, n + 0 - 1 = n - 1 := fun n => rfl
  norm_num [e2, e1, e0]
  ring

/-- Storing an in-range byte value through `Uint8ClampedArray` semantics
returns it unchanged. -/
theorem u8Store_byte (n : ℕ) (h : n ≤ 255) : u8Store ((n : ℚ)) = n := by
  rw [u8Store]
  have h0 : max 0 ((n : ℚ)) = (n : ℚ) := max_eq_right (by positivity)
  have h255 : min 255 ((n : ℚ)) = (n : ℚ) := min_eq_right (by exact_mod_cast h)
  rw [h0, h255, roundHalfEven, Int.floor_natCast]
  rw [if_pos (by norm_num)]
  exact Int.toNat_natCast n

/-- Every byte produced by the `Uint8ClampedArray` store is at most 255. -/
theorem u8Store_le (q : ℚ) : u8Store q ≤ 255 := by
  rw [u8Store, roundHalfEven]
  have hm255 : min 255 (max 0 q) ≤ 255 := min_le_left _ _
  have hf : ⌊min 255 (max 0 q)⌋ ≤ 255 := by
    have := Int.floor_le_floor hm255
    simpa using this
  have hfrac : min 255 (max 0 q) - ⌊min 255 (max 0 q)⌋ < 1 := by
    have := Int.lt_floor_add_one (min 255 (max 0 q))
    linarith
  have hfle : (⌊min 255 (max 0 q)⌋ : ℚ) ≤ min 255 (max 0 q) := Int.floor_le _
  split
  · rw [Int.toNat_le]; exact_mod_cast hf
  · split
    · next h1 h2 =>
      rw [Int.toNat_le]
      have hlt : (⌊min 255 (max 0 q)⌋ : ℚ) < 255 - 1/2 := by linarith
      have : ⌊min 255 (max 0 q)⌋ < 255 := by
        by_contra hcon
        push_neg at hcon
        have : (255 : ℚ) ≤ (⌊min 255 (max 0 q)⌋ : ℚ) := by exact_mod_cast hcon
        linarith
      omega
    · next h1 h2 =>
      have heq : min 255 (max 0 q) - ⌊min 255 (max 0 q)⌋ = 1/2 := by
        push_neg at h1 h2
        linarith
      split
      · rw [Int.toNat_le]; exact_mod_cast hf
      · rw [Int.toNat_le]
        have : ⌊min 255 (max 0 q)⌋ < 255 := by
          by_contra hcon
          push_neg at hcon
          have : (255 : ℚ) ≤ (⌊min 255 (max 0 q)⌋ : ℚ) := by exact_mod_cast hcon
          linarith
        omega

/-- Every byte produced by the color filter stage is at most 255. -/
theorem filterChannel_le (st : EditorState) (img : ImageData) (x y c : ℕ) :
    filterChannel st img x y c ≤ 255 := by
  rcases c with _ | _ | _ | _ | c
  · exact u8Store_le _
  · exact u8Store_le _
  · exact u8Store_le _
  · exact u8Store_le _
  · exact Nat.zero_le 255

/-- Every byte of the composited surface is at most 255. -/
theorem composite_byte_le (st : EditorState) (img : ImageData) (i : ℕ) :
    (composite st img).data i ≤ 255 := by
  simp only [composite]
  split
  · rw [samplePixel]
    split
    · exact filterChannel_le st img _ _ _
    · norm_num
  · norm_num

/-- At the 100% defaults the CSS brightness/contrast/saturate chain is the
identity on each RGB triple. -/
theorem filterRGB_default (st : EditorState) (hb : st.brightness = 100)
    (hcon : st.contrast = 100) (hsat : st.saturation = 100) (r g b : ℚ) :
    filterRGB st r g b = (r, g, b) := by
  simp only [filterRGB, hb, hcon, hsat, Prod.mk.injEq]
  norm_num

/-- At the 100% defaults the filtered byte of any channel is the source
byte, provided the source holds genuine bytes. -/
theorem filterChannel_default (st : EditorState) (img : ImageData)
    (hb : st.brightness = 100) (hcon : st.contrast = 100) (hsat : st.saturation = 100)
    (hwf : ∀ i, img.data i ≤ 255) (x y c : ℕ) (hc : c < 4) :
    filterChannel st img x y c = img.data ((y * img.width + x) * 4 + c) := by
  interval_cases c
  · have he : filterChannel st img x y 0 =
        u8Store ((filterRGB st ((px img x y 0 : ℚ)) ((px img x y 1 : ℚ))
          ((px img x y 2 : ℚ))).1) := rfl
    rw [he, filterRGB_default st hb hcon hsat]
    exact u8Store_byte _ (hwf _)
  · have he : filterChannel st img x y 1 =
        u8Store ((filterRGB st ((px img x y 0 : ℚ)) ((px img x y 1 : ℚ))
          ((px img x y 2 : ℚ))).2.1) := rfl
    rw [he, filterRGB_default st hb hcon hsat]
    exact u8Store_byte _ (hwf _)
  · have he : filterChannel st img x y 2 =
        u8Store ((filterRGB st ((px img x y 0 : ℚ)) ((px img x y 1 : ℚ))
          ((px img x y 2 : ℚ))).2.2) := rfl
    rw [he, filterRGB_default st hb hcon hsat]
    exact u8Store_byte _ (hwf _)
  · have he : filterChannel st img x y 3 = u8Store ((px img x y 3 : ℚ)) := rfl
    rw [he]
    exact u8Store_byte _ (hwf _)

/-- With rotation 0 and zoom 1 the composed canvas transform is the
identity. -/
theorem transformOf_default (w h : ℕ) : transformOf w h 0 1 = idAffine := by
  simp only [transformOf, rotAffine, cosDeg, sinDeg, translateA, scaleA,
    Affine.mul, idAffine, Int.zero_emod]
  norm_num

/-- The identity transform is its own inverse. -/
theorem invAffine_id : Affine.inv idAffine = idAffine := by
  simp only [Affine.inv, Affine.det, idAffine]
  norm_num

/-- Applying the identity transform: first coordinate. -/
theorem appX_id (x y : ℚ) : Affine.appX idAffine x y = x := by
  simp [Affine.appX, idAffine]

/-- Applying the identity transform: second coordinate. -/
theorem appY_id (x y : ℚ) : Affine.appY idAffine x y = y := by
  simp [Affine.appY, idAffine]

/-- With identity geometry (rotation 0, zoom 1) and identity color
adjustments (all three at 100), the composited surface reproduces the
source bytes at every in-range flat index. -/
theorem composite_default_apply (st : EditorState) (img : ImageData)
    (hb : st.brightness = 100) (hcon : st.contrast = 100) (hsat : st.saturation = 100)
    (hr : st.rotationDeg = 0) (hz : st.zoom = 1)
    (hwf : ∀ i, img.data i ≤ 255) :
    ∀ i, i < 4 * img.width * img.height → (composite st img).data i = img.data i := by
  intro i hi
  have hw0 : 0 < img.width := by
    rcases Nat.eq_zero_or_pos img.width with h | h
    · rw [h] at hi; simp at hi
    · exact h
  have hh0 : 0 < img.height := by
    rcases Nat.eq_zero_or_pos img.height with h | h
    · rw [h] at hi; simp at hi
    · exact h
  have hP : i < img.width * img.height * 4 := by
    calc i < 4 * img.width * img.height := hi
      _ = img.width * img.height * 4 := by ring
  have hp4 : i / 4 < img.width * img.height :=
    (Nat.div_lt_iff_lt_mul (by norm_num)).mpr hP
  have hxw : (i / 4) % img.width < img.width := Nat.mod_lt _ hw0
  have hyh : (i / 4) / img.width < img.height := by
    rw [Nat.div_lt_iff_lt_mul hw0]
    calc i / 4 < img.width * img.height := hp4
      _ = img.height * img.width := by ring
  simp only [composite]
  rw [if_pos hi, hr, hz, transformOf_default, samplePixel]
  simp only [invAffine_id, appX_id, appY_id, Rat.den_natCast, Rat.num_natCast]
  rw [if_pos ⟨trivial, trivial, Int.natCast_nonneg _, by exact_mod_cast hxw,
    Int.natCast_nonneg _, by exact_mod_cast hyh⟩]
  rw [Int.toNat_natCast, Int.toNat_natCast]
  rw [filterChannel_default st img hb hcon hsat hwf _ _ _ (Nat.mod_lt _ (by norm_num))]
  congr 1
  have h1 : i / 4 / img.width * img.width + i / 4 % img.width = i / 4 := by
    rw [mul_comm]
    exact Nat.div_add_mod (i / 4) img.width
  have h2 : i / 4 * 4 + i % 4 = i := by
    rw [mul_comm]
    exact Nat.div_add_mod i 4
  rw [h1, h2]

/-! ### Claim theorems -/

/-- C6: `RotateStep` replaces the rotation `r` by `(r + 90) mod 360`
(the JavaScript remainder agrees with the mathematical modulus on the
nonnegative rotations the editor holds), so four presses return any of
0, 90, 180, 270 to its starting value. -/
theorem rotate_step_spec :
    (∀ s : EditorState, (handleRotate s).rotationDeg = rotateStep s.rotationDeg) ∧
    (∀ r : ℤ, 0 ≤ r → rotateStep r = (r + 90) % 360) ∧
    (∀ r : ℤ, r = 0 ∨ r = 90 ∨ r = 180 ∨ r = 270 →
      rotateStep (rotateStep (rotateStep (rotateStep r))) = r) := by
  refine ⟨fun s => rfl, fun r hr => ?_, fun r hr => ?_⟩
  · rw [rotateStep, Int.tmod_eq_emod] <;> omega
  · rcases hr with rfl | rfl | rfl | rfl <;> decide

/-- C6 witness: concrete instances of both quantified parts. -/
theorem rotate_step_spec_witness :
    rotateStep 0 = (0 + 90) % 360 ∧
    rotateStep (rotateStep (rotateStep (rotateStep 270))) = 270 :=
  ⟨rotate_step_spec.2.1 0 (by decide), rotate_step_spec.2.2 270 (by decide)⟩

/-- C7: `ZoomIn` adds 0.1 clamping above at 3, `ZoomOut` subtracts 0.1
clamping below at 0.5; on the in-range states both agree with full
clamping to `[0.5, 3]`, and every zoom reachable from the default 1 stays
inside `[0.5, 3]`. -/
theorem zoom_clamp_invariant :
    (∀ z : ℚ, zoomInStep z = min (z + 1/10) 3) ∧
    (∀ z : ℚ, zoomOutStep z = max (z - 1/10) (1/2)) ∧
    (∀ z : ℚ, 1/2 ≤ z → z ≤ 3 →
      zoomInStep z = max (1/2) (min (z + 1/10) 3) ∧
      zoomOutStep z = max (1/2) (min (z - 1/10) 3)) ∧
    (∀ z : ℚ, ReachableZoom z → 1/2 ≤ z ∧ z ≤ 3) := by
  refine ⟨fun z => rfl, fun z => rfl, fun z h1 h2 => ⟨?_, ?_⟩, fun z hz => ?_⟩
  · rw [zoomInStep, max_eq_right]
    exact le_min (by linarith) (by norm_num)
  · rw [zoomOutStep, min_eq_left (by linarith), max_comm]
  · induction hz with
    | init => norm_num
    | stepIn h ih =>
      rw [zoomInStep]
      exact ⟨le_min (by linarith [ih.1]) (by norm_num), min_le_right _ _⟩
    | stepOut h ih =>
      rw [zoomOutStep]
      exact ⟨le_max_right _ _, max_le (by linarith [ih.2]) (by norm_num)⟩

/-- C7 witness: concrete instances of the clamped-update and invariant
parts. -/
theorem zoom_clamp_invariant_witness :
    zoomInStep 1 = max (1/2) (min (1 + 1/10) 3) ∧
    (1/2 ≤ zoomInStep 1 ∧ zoomInStep 1 ≤ 3) :=
  ⟨(zoom_clamp_invariant.2.2.1 1 (by norm_num) (by norm_num)).1,
   zoom_clamp_invariant.2.2.2 (zoomInStep 1)
     (ReachableZoom.stepIn ReachableZoom.init)⟩

/-- C2 counterexample: submitting 300 through the brightness setter stores
300 itself, not the nearest domain boundary 200 — out-of-range values are
stored as-is. -/
theorem setter_no_clamp_cex :
    (setBrightness 300 initialState).brightness = 300 ∧
    (setBrightness 300 initialState).brightness ≠ 200 ∧ ¬ ((300 : ℚ) ≤ 200) :=
  ⟨rfl, by norm_num [setBrightness], by norm_num⟩

/-- C2 (amended): the brightness/contrast/saturation/sharpness setters
store the submitted value unchanged (no clamping, no rejection); rotation
wraps modulo 360 through `RotateStep`; zoom changes only through
`ZoomIn`/`ZoomOut`, which keep it inside `[0.5, 3]` from any in-range
state. -/
theorem setter_behavior :
    (∀ (v : ℚ) (s : EditorState), (setBrightness v s).brightness = v) ∧
    (∀ (v : ℚ) (s : EditorState), (setContrast v s).contrast = v) ∧
    (∀ (v : ℚ) (s : EditorState), (setSaturation v s).saturation = v) ∧
    (∀ (v : ℚ) (s : EditorState), (setSharpness v s).sharpness = v) ∧
    (∀ s : EditorState, (handleRotate s).rotationDeg = Int.tmod (s.rotationDeg + 90) 360) ∧
    (∀ s : EditorState, 1/2 ≤ s.zoom → s.zoom ≤ 3 →
      1/2 ≤ (handleZoomIn s).zoom ∧ (handleZoomIn s).zoom ≤ 3 ∧
      1/2 ≤ (handleZoomOut s).zoom ∧ (handleZoomOut s).zoom ≤ 3) := by
  refine ⟨fun v s => rfl, fun v s => rfl, fun v s => rfl, fun v s => rfl,
    fun s => rfl, fun s h1 h2 => ?_⟩
  have hz1 : (handleZoomIn s).zoom = min (s.zoom + 1/10) 3 := rfl
  have hz2 : (handleZoomOut s).zoom = max (s.zoom - 1/10) (1/2) := rfl
  rw [hz1, hz2]
  refine ⟨le_min (by linarith) (by norm_num), min_le_right _ _,
    le_max_right _ _, max_le (by linarith) (by norm_num)⟩

/-- C2 witness: concrete instances with the zoom hypotheses discharged at
the initial state. -/
theorem setter_behavior_witness :
    (setBrightness 300 initialState).brightness = 300 ∧
    1/2 ≤ (handleZoomIn initialState).zoom :=
  ⟨setter_behavior.1 300 initialState,
   (setter_behavior.2.2.2.2.2 initialState (by norm_num [initialState])
     (by norm_num [initialState])).1⟩

/-- C3 counterexample: invoked before any load or render, `handleSave`
delivers the PNG encoding of the blank default canvas and signals no
error, contradicting the required `ExportError`. -/
theorem save_before_load_cex :
    handleSave (some defaultCanvas) =
      SaveOutcome.delivered ⟨"image/png", defaultCanvas⟩ ∧
    handleSave (some defaultCanvas) ≠ SaveOutcome.exportError := by
  refine ⟨rfl, fun h => ?_⟩
  rw [show handleSave (some defaultCanvas) =
    SaveOutcome.delivered ⟨"image/png", defaultCanvas⟩ from rfl] at h
  exact SaveOutcome.noConfusion h

/-- C3 (amended): `handleSave` never signals any error: with no canvas or
a null encoding it silently does nothing, and otherwise it delivers the
encoded current canvas — including the blank default canvas when saving
before any load. -/
theorem save_never_errors :
    (∀ c : Option ImageData, handleSave c ≠ SaveOutcome.exportError) ∧
    handleSave (some defaultCanvas) =
      SaveOutcome.delivered ⟨"image/png", defaultCanvas⟩ := by
  refine ⟨fun c => ?_, rfl⟩
  cases c with
  | none => exact fun h => SaveOutcome.noConfusion h
  | some c' =>
    simp only [handleSave]
    cases htb : toBlobModel c' with
    | none => exact fun h => SaveOutcome.noConfusion h
    | some b => exact fun h => SaveOutcome.noConfusion h

/-- C3 witness: the delivered-blob part of the amended statement at the
concrete default canvas. -/
theorem save_never_errors_witness :
    handleSave (some defaultCanvas) =
      SaveOutcome.delivered ⟨"image/png", defaultCanvas⟩ :=
  save_never_errors.2

/-- C9: a stored file name is classified as video exactly when its
lowercased form ends with `.mp4`, `.webm`, or `.mov`; every other name is
classified as image; the 3D viewer receives exactly the image-classified
items, and the edit button is offered exactly for image-classified
items. -/
theorem video_classification :
    (∀ name : String, classify name = MediaType.video ↔
      ((name.toLower).endsWith (".mp4") = true ∨
        (name.toLower).endsWith (".webm") = true ∨
        (name.toLower).endsWith (".mov") = true)) ∧
    (∀ name : String, classify name = MediaType.image ↔
      ¬ ((name.toLower).endsWith (".mp4") = true ∨
        (name.toLower).endsWith (".webm") = true ∨
        (name.toLower).endsWith (".mov") = true)) ∧
    (∀ (media : List MediaItem) (m : MediaItem),
      m ∈ threeDMedia media ↔ m ∈ media ∧ m.type = MediaType.image) ∧
    (∀ m : MediaItem, canEdit m = true ↔ m.type = MediaType.image) := by
  have hvid : ∀ name : String, isVideoName name = true ↔
      ((name.toLower).endsWith (".mp4") = true ∨
        (name.toLower).endsWith (".webm") = true ∨
        (name.toLower).endsWith (".mov") = true) := by
    intro name
    rw [isVideoName]
    simp [Bool.or_eq_true, or_assoc]
  refine ⟨fun name => ?_, fun name => ?_, fun media m => ?_, fun m => ?_⟩
  · rw [← hvid, classify]
    by_cases h : isVideoName name = true
    · simp [h]
    · simp [Bool.not_eq_true] at h
      simp [h]
  · rw [← hvid, classify]
    by_cases h : isVideoName name = true
    · simp [h]
    · simp [Bool.not_eq_true] at h
      simp [h]
  · rw [threeDMedia, List.mem_filter]
    simp [beq_iff_eq]
  · rw [canEdit]
    simp [beq_iff_eq]

/-- C9 witness: the edit-eligibility part at a concrete image item. -/
theorem video_classification_witness :
    canEdit ⟨("a.png"), MediaType.image⟩ = true ↔
      (⟨("a.png"), MediaType.image⟩ : MediaItem).type = MediaType.image :=
  video_classification.2.2.2 ⟨("a.png"), MediaType.image⟩

/-- C10: when either dimension is below 3, the sharpen loop body never
executes and `applySharpen` returns the all-zero (fully transparent black)
buffer; consequently a render of such an image with positive sharpness
produces an entirely blank surface. -/
theorem small_image_blank :
    (∀ (img : ImageData) (amount : ℚ), img.width < 3 ∨ img.height < 3 →
      ∀ i, (applySharpen img amount).data i = 0) ∧
    (∀ (st : EditorState) (img : ImageData), 0 < st.sharpness →
      img.width < 3 ∨ img.height < 3 →
      ∀ i, (applyFilters st img).data i = 0) := by
  refine ⟨fun img amount hdim => applySharpen_blank img amount hdim,
    fun st img hs hdim i => ?_⟩
  rw [applyFilters, if_pos hs]
  exact applySharpen_blank (composite st img) (st.sharpness / 100)
    (by simpa [composite] using hdim) i

/-- C10 witness: a concrete 2x2 image rendered with sharpness 100 comes
out all-zero. -/
theorem small_image_blank_witness :
    (applySharpen ⟨2, 2, fun _ => 7⟩ 1).data 0 = 0 ∧
    (applyFilters ⟨100, 100, 100, 100, 0, 1⟩ ⟨2, 2, fun _ => 7⟩).data 5 = 0 :=
  ⟨small_image_blank.1 ⟨2, 2, fun _ => 7⟩ 1 (Or.inl (by decide)) 0,
   small_image_blank.2 ⟨100, 100, 100, 100, 0, 1⟩ ⟨2, 2, fun _ => 7⟩
     (by norm_num) (Or.inl (by decide)) 5⟩

/-- C5: a render with every parameter at its default reproduces the source
image byte-for-byte: the composed transform is the identity, the color
adjustment is the identity, and the sharpening branch is skipped. -/
theorem render_defaults_id (img : ImageData) (hwf : ∀ i, img.data i ≤ 255) :
    (applyFilters initialState img).width = img.width ∧
    (applyFilters initialState img).height = img.height ∧
    ∀ i, i < 4 * img.width * img.height →
      (applyFilters initialState img).data i = img.data i := by
  have hskip : applyFilters initialState img = composite initialState img := by
    rw [applyFilters,
      if_neg (show ¬(0 < EditorState.sharpness initialState) from lt_irrefl 0)]
  rw [hskip]
  exact ⟨rfl, rfl, composite_default_apply initialState img rfl rfl rfl rfl rfl hwf⟩

/-- A 4x4 fully opaque mid-gray source image. -/
def gray4 : ImageData := ⟨4, 4, fun i => if i % 4 = 3 then 255 else 128⟩

/-- C5 witness: the default render of the 4x4 mid-gray image keeps its
first byte. -/
theorem render_defaults_id_witness :
    (applyFilters initialState gray4).data 0 = gray4.data 0 :=
  (render_defaults_id gray4 (fun i => by
    show (if i % 4 = 3 then 255 else 128) ≤ 255
    split <;> norm_num)).2.2 0 (by decide)

/-- The convolution formula as the specification words it: center weight
`1 + 4k`, the four orthogonal neighbours weight `-k`, the four diagonal
neighbours weight 0. -/
def kernelFormula (base : ImageData) (k : ℚ) (x y c : ℕ) : ℚ :=
  (1 + 4 * k) * (px base x y c : ℚ) -
    k * ((px base (x - 1) y c : ℚ) + (px base (x + 1) y c : ℚ) +
      (px base x (y - 1) c : ℚ) + (px base x (y + 1) c : ℚ)) +
    0 * ((px base (x - 1) (y - 1) c : ℚ) + (px base (x + 1) (y - 1) c : ℚ) +
      (px base (x - 1) (y + 1) c : ℚ) + (px base (x + 1) (y + 1) c : ℚ))

/-- C4: at every interior pixel the sharpening pass convolves each color
channel independently with the kernel whose center weighs `1 + 4k`, whose
orthogonal neighbours weigh `-k`, and whose diagonal neighbours weigh 0
(`k = sharpness / 100`), clamps the sample to `[0, 255]` (then stores it
with byte rounding), and copies the alpha byte through unchanged from the
pre-sharpen surface. -/
theorem sharpen_kernel_interior (st : EditorState) (img : ImageData) (x y : ℕ)
    (hs : 0 < st.sharpness)
    (hx1 : 1 ≤ x) (hx2 : x + 2 ≤ img.width) (hy1 : 1 ≤ y) (hy2 : y + 2 ≤ img.height) :
    (∀ c, c < 3 →
      (applyFilters st img).data ((y * img.width + x) * 4 + c) =
        u8Store (min 255 (max 0
          (kernelFormula (composite st img) (st.sharpness / 100) x y c)))) ∧
    (applyFilters st img).data ((y * img.width + x) * 4 + 3) =
      (composite st img).data ((y * img.width + x) * 4 + 3) := by
  have hintro : applyFilters st img =
      applySharpen (composite st img) (st.sharpness / 100) := by
    rw [applyFilters, if_pos hs]
  constructor
  · intro c hc
    rw [hintro]
    calc (applySharpen (composite st img) (st.sharpness / 100)).data
          ((y * img.width + x) * 4 + c)
        = ownVal (composite st img).data (composite st img).width
            (sharpenKernel (st.sharpness / 100)) x y c :=
          applySharpen_interior (composite st img) (st.sharpness / 100) x y c
            hx1 hx2 hy1 hy2 (by omega)
      _ = _ := by
          rw [ownVal, if_neg (by omega), convSum_kernel, kernelFormula]
          rfl
  · rw [hintro]
    refine (applySharpen_interior (composite st img) (st.sharpness / 100) x y 3
      hx1 hx2 hy1 hy2 (by norm_num)).trans ?_
    rw [ownVal, if_pos rfl]
    exact u8Store_byte _ (composite_byte_le st img _)

/-- A state with sharpness 50 and every other parameter at its default. -/
def stSharp50 : EditorState := ⟨100, 100, 100, 50, 0, 1⟩

/-- A 3x3 image whose every byte is 9. -/
def img3x3 : ImageData := ⟨3, 3, fun _ => 9⟩

/-- C4 witness: concrete instances of both the red-channel and the alpha
conclusions at the center pixel of a 3x3 image with sharpness 50. -/
theorem sharpen_kernel_interior_witness :
    (applyFilters stSharp50 img3x3).data ((1 * 3 + 1) * 4 + 0) =
      u8Store (min 255 (max 0
        (kernelFormula (composite stSharp50 img3x3) ((50 : ℚ) / 100) 1 1 0))) ∧
    (applyFilters stSharp50 img3x3).data ((1 * 3 + 1) * 4 + 3) =
      (composite stSharp50 img3x3).data ((1 * 3 + 1) * 4 + 3) :=
  ⟨(sharpen_kernel_interior stSharp50 img3x3 1 1 (by norm_num [stSharp50])
      (by norm_num) (by norm_num [img3x3]) (by norm_num) (by norm_num [img3x3])).1
      0 (by norm_num),
   (sharpen_kernel_interior stSharp50 img3x3 1 1 (by norm_num [stSharp50])
      (by norm_num) (by norm_num [img3x3]) (by norm_num) (by norm_num [img3x3])).2⟩

/-- A state with sharpness 100 and every other parameter at its default. -/
def stFull : EditorState := ⟨100, 100, 100, 100, 0, 1⟩

/-- A 3x3 all-white fully opaque image. -/
def white3 : ImageData := ⟨3, 3, fun _ => 255⟩

/-- C1 (code bug): rendering a 3x3 all-white image with sharpness 100
zeroes the border byte at pixel (0, 0) (the fresh output buffer is never
written there), while the pre-sharpen composited surface holds 255 — the
border is replaced by transparent black, not left unmodified. -/
theorem sharpen_border_zeroed :
    (applyFilters stFull white3).data 0 = 0 ∧
    (composite stFull white3).data 0 = 255 ∧ white3.data 0 = 255 := by
  refine ⟨by decide, ?_, rfl⟩
  exact (composite_default_apply stFull white3 rfl rfl rfl rfl rfl
    (fun i => le_refl 255) 0 (by decide)).trans rfl

/-- C8: with `sharpness = 0` the `sharpness > 0` branch is skipped and the
rendered output is exactly the pre-sharpen composited surface. -/
theorem sharpness_zero_skip :
    ∀ (st : EditorState) (img : ImageData), st.sharpness = 0 →
      applyFilters st img = composite st img := by
  intro st img h
  rw [applyFilters, if_neg]
  rw [h]
  exact lt_irrefl 0

/-- C8 witness: a concrete instance at the default state. -/
theorem sharpness_zero_skip_witness :
    applyFilters initialState ⟨1, 1, fun _ => 5⟩ =
      composite initialState ⟨1, 1, fun _ => 5⟩ :=
  sharpness_zero_skip initialState ⟨1, 1, fun _ => 5⟩ rfl

end Aether
